import Mathlib

/-!
Verification of the vocab-harvester staging/approval core.

The SQLite-backed stores of `src/database.py` are embedded as list-backed
states: each table is a list of rows kept in rowid (insertion) order, since
SQLite appends new rows and scans in rowid order when no ORDER BY is given.
`INSERT OR REPLACE` deletes the conflicting row and appends a fresh one
(fresh rowid, fresh `created_at` default).  `CURRENT_TIMESTAMP` is modelled
by a monotone counter `clock`; `AUTOINCREMENT` for tag ids by `nextTagId`.
`ORDER BY` is modelled by a stable merge sort on the scan order.
SQLite `LIKE` is ASCII-case-insensitive with `%`/`_` wildcards and is
embedded as an executable matcher.  Python `None` becomes `Option`.
The session layer of `src/session_manager.py` is embedded with the external
pipeline collaborator (`process_text_input`) abstracted as an outcome value
(a statistics record, a `None` return, or a raised exception), exactly the
three cases `start_session` distinguishes.
-/

/-- A row of the `vocab` table (`word` is the primary key). -/
structure VocabRow where
  word : String
  pos : Option String
  isRegular : Option Bool
  translation : Option String
  difficulty : Int
deriving Repr, DecidableEq

/-- A row of the `tags` table (`tag_id` autoincrement primary key). -/
structure TagRow where
  tagId : Nat
  tagName : String
  description : Option String
deriving Repr, DecidableEq

/-- A row of the `temp_vocab` staging table.
Primary key in the schema is `(word, session_id)`. -/
structure TempRow where
  word : String
  lem : String
  pos : Option String
  translation : Option String
  isRegular : Option Bool
  sessionId : String
  createdAt : Nat
deriving Repr, DecidableEq

/-- The whole SQLite database of `database.py`: the four tables in rowid
order, plus the autoincrement counter for `tags` and a monotone clock
standing in for `CURRENT_TIMESTAMP`. -/
structure DbState where
  vocab : List VocabRow
  tags : List TagRow
  wordTags : List (String × Nat)
  temp : List TempRow
  nextTagId : Nat
  clock : Nat
deriving Repr, DecidableEq

/-- `word_exists(word)`: membership test on the `vocab` table. -/
def word_exists (word : String) (st : DbState) : Bool :=
  st.vocab.any (fun r => r.word == word)

/-- `add_temp_word(word, lem, pos, translation, is_regular, session_id)`:
`INSERT OR REPLACE INTO temp_vocab` keyed on the `(word, session_id)`
primary key -- the conflicting row (if any) is deleted and the new row is
appended with a fresh `created_at`. -/
def add_temp_word (word lem : String) (pos translation : Option String)
    (isRegular : Option Bool) (sessionId : String) (st : DbState) :
    Bool × DbState :=
  (true,
    { st with
      temp := st.temp.filter
          (fun r => !(r.word == word && r.sessionId == sessionId)) ++
        [⟨word, lem, pos, translation, isRegular, sessionId, st.clock⟩],
      clock := st.clock + 1 })

/-- Scan order comparison used by `ORDER BY created_at`. -/
def tempOrder (a b : TempRow) : Bool :=
  a.createdAt ≤ b.createdAt

/-- `get_temp_words(session_id=None)`: Python tests `if session_id:` --
both `None` and the empty string take the unfiltered branch.  Rows are
returned ordered by `created_at` (stable sort over scan order). -/
def get_temp_words (sessionId : Option String) (st : DbState) :
    List TempRow :=
  match sessionId with
  | some sid =>
    if sid == "" then st.temp.mergeSort tempOrder
    else (st.temp.filter (fun r => r.sessionId == sid)).mergeSort tempOrder
  | none => st.temp.mergeSort tempOrder

/-- `remove_temp_word(word, session_id)`: DELETE by the candidate key;
returns whether any row was removed (`cursor.rowcount > 0`). -/
def remove_temp_word (word sessionId : String) (st : DbState) :
    Bool × DbState :=
  (decide (0 < (st.temp.filter
      (fun r => r.word == word && r.sessionId == sessionId)).length),
    { st with
      temp := st.temp.filter
        (fun r => !(r.word == word && r.sessionId == sessionId)) })

/-- `clear_temp_session(session_id)`: DELETE of every row of the session,
returning `cursor.rowcount` (the number of rows removed). -/
def clear_temp_session (sessionId : String) (st : DbState) :
    Nat × DbState :=
  ((st.temp.filter (fun r => r.sessionId == sessionId)).length,
    { st with temp := st.temp.filter (fun r => !(r.sessionId == sessionId)) })

/-- `temp_word_exists(word, session_id)`. -/
def temp_word_exists (word sessionId : String) (st : DbState) : Bool :=
  st.temp.any (fun r => r.word == word && r.sessionId == sessionId)

/-- `SELECT tag_id FROM tags WHERE tag_name = ?` -- first match in scan
order. -/
def getTagIdInState (tagName : String) (st : DbState) : Option Nat :=
  (st.tags.find? (fun t => t.tagName == tagName)).map (fun t => t.tagId)

/-- The get-or-create half of a tag step inside `approve_word`: if no tag
row carries the name, `INSERT INTO tags` appends one with the next
autoincrement id. -/
def insertTagWrite (tagName : String) (st : DbState) : DbState :=
  match getTagIdInState tagName st with
  | some _ => st
  | none =>
    { st with
      tags := st.tags ++ [⟨st.nextTagId, tagName, none⟩],
      nextTagId := st.nextTagId + 1 }

/-- The association half of a tag step inside `approve_word`:
`INSERT OR IGNORE INTO word_tags` for the tag id the preceding
get-or-create produced. -/
def insertWordTagWrite (word tagName : String) (st : DbState) : DbState :=
  match getTagIdInState tagName st with
  | some tid =>
    if (word, tid) ∈ st.wordTags then st
    else { st with wordTags := st.wordTags ++ [(word, tid)] }
  | none => st

/-- The two statements `approve_word` executes for one tag name. -/
def tagWrites (word tagName : String) : List (DbState → DbState) :=
  [insertTagWrite tagName, insertWordTagWrite word tagName]

/-- Apply a sequence of single-statement writes in order. -/
def applyWrites (ws : List (DbState → DbState)) (st : DbState) : DbState :=
  ws.foldl (fun s f => f s) st

/-- The write statements of `approve_word`'s promotion branch, in program
order: insert the vocabulary row (built from the staged row's fields and
the caller-supplied difficulty), run both tag statements per supplied tag
name, then delete the staged rows of `(lem, session_id)`. -/
def approveWrites (lem sessionId : String) (difficulty : Int)
    (tags : List String) (row : TempRow) : List (DbState → DbState) :=
  (fun st => { st with vocab := st.vocab ++
      [⟨row.lem, row.pos, row.isRegular, row.translation, difficulty⟩] })
  :: ((tags.map (fun t => tagWrites row.lem t)).flatten ++
    [fun st =>
      { st with
        temp := st.temp.filter
          (fun r => !(r.lem == lem && r.sessionId == sessionId)) }])

/-- `approve_word(lem, session_id, difficulty=3, tags=None)`:
look up the staged row (`LIMIT 1` in scan order); if absent fail; if the
lem is already a vocabulary word, delete the staged rows anyway and fail;
otherwise run the promotion writes and succeed. -/
def approve_word (lem sessionId : String) (difficulty : Int)
    (tags : List String) (st : DbState) : Bool × DbState :=
  match st.temp.find? (fun r => r.lem == lem && r.sessionId == sessionId) with
  | none => (false, st)
  | some row =>
    if word_exists row.lem st then
      (false,
        { st with
          temp := st.temp.filter
            (fun r => !(r.lem == lem && r.sessionId == sessionId)) })
    else
      (true, applyWrites (approveWrites lem sessionId difficulty tags row) st)

/-- `reject_word(lem, session_id)`: DELETE of the staged rows of
`(lem, session_id)`; returns `cursor.rowcount > 0`. -/
def reject_word (lem sessionId : String) (st : DbState) :
    Bool × DbState :=
  (decide (0 < (st.temp.filter
      (fun r => r.lem == lem && r.sessionId == sessionId)).length),
    { st with
      temp := st.temp.filter
        (fun r => !(r.lem == lem && r.sessionId == sessionId)) })

/-- `get_pending_words(session_id=None)`: alias of `get_temp_words`. -/
def get_pending_words (sessionId : Option String) (st : DbState) :
    List TempRow :=
  get_temp_words sessionId st

/-- `clear_session(session_id)`: alias of `clear_temp_session`. -/
def clear_session (sessionId : String) (st : DbState) : Nat × DbState :=
  clear_temp_session sessionId st

/-- SQLite folds only ASCII letters for its default `LIKE`. -/
def lowerAscii (c : Char) : Char :=
  if 'A' ≤ c ∧ c ≤ 'Z' then Char.ofNat (c.toNat + 32) else c

/-- SQLite `LIKE` pattern matching: `%` matches any sequence, `_` any
single character, letters compare ASCII-case-insensitively.  First list
is the pattern, second the text.  Every recursive call shrinks
`ps.length + s.length`, so the fuel (which makes the function structural
and kernel-evaluable) is never exhausted when it starts at
`ps.length + s.length + 1`. -/
def likeMatchFuel : Nat → List Char → List Char → Bool
  | 0, _, _ => false
  | _ + 1, [], [] => true
  | _ + 1, [], _ :: _ => false
  | n + 1, '%' :: ps, [] => likeMatchFuel n ps []
  | _ + 1, _ :: _, [] => false
  | n + 1, '%' :: ps, c :: cs =>
    likeMatchFuel n ps (c :: cs) || likeMatchFuel n ('%' :: ps) cs
  | n + 1, '_' :: ps, _ :: cs => likeMatchFuel n ps cs
  | n + 1, p :: ps, c :: cs =>
    (lowerAscii p == lowerAscii c) && likeMatchFuel n ps cs

/-- `LIKE` matching with enough fuel for the two lists. -/
def likeMatch (ps s : List Char) : Bool :=
  likeMatchFuel (ps.length + s.length + 1) ps s

/-- `s LIKE pat` for strings. -/
def strLike (s pat : String) : Bool :=
  likeMatch pat.data s.data

/-- The pattern `f"%{search_term}%"` built by `get_all_words`. -/
def likePat (t : String) : String :=
  "%" ++ t ++ "%"

/-- Comparison used by `ORDER BY word ASC` (binary collation; Lean's
`String` order is codepoint order, which agrees with UTF-8 byte order). -/
def vocabOrder (a b : VocabRow) : Bool :=
  a.word ≤ b.word

/-- `get_all_words(filters=None, search_term=None)`: the `filters` dict is
consulted only for its `difficulty` key, modelled as `Option Int`; a
present key adds `difficulty = ?`.  A truthy `search_term` (Python: `None`
and `""` are falsy) adds `(word LIKE %t% OR translation LIKE %t%)`; a NULL
translation makes its side of the OR non-true, as in SQL.  Results are
ordered by word. -/
def wordRowPred (difficultyFilter : Option Int)
    (searchTerm : Option String) (r : VocabRow) : Bool :=
  (match difficultyFilter with
    | some d => r.difficulty == d
    | none => true) &&
  (match searchTerm with
    | some t =>
      if t == "" then true
      else strLike r.word (likePat t) ||
        (match r.translation with
          | some tr => strLike tr (likePat t)
          | none => false)
    | none => true)

/-- The SELECT of `get_all_words`: WHERE clause `wordRowPred`, then
`ORDER BY word ASC`. -/
def get_all_words (difficultyFilter : Option Int)
    (searchTerm : Option String) (st : DbState) : List VocabRow :=
  (st.vocab.filter (wordRowPred difficultyFilter searchTerm)).mergeSort
    vocabOrder

/-- `SessionStatus` enum of `session_manager.py`. -/
inductive SessionStatus where
  | created
  | processing
  | completed
  | failed
  | pendingReview
deriving Repr, DecidableEq

/-- The `.value` string of each `SessionStatus` member. -/
def statusValue : SessionStatus → String
  | .created => "created"
  | .processing => "processing"
  | .completed => "completed"
  | .failed => "failed"
  | .pendingReview => "pending_review"

/-- The four statistics counters of a `ProcessingSession`. -/
structure SessionStats where
  totalWordsProcessed : Nat
  wordsAdded : Nat
  wordsTranslated : Nat
  wordsFailed : Nat
deriving Repr, DecidableEq

/-- The persistent fields of a `ProcessingSession` (timestamps modelled as
naturals). -/
structure Session where
  sessionId : String
  status : SessionStatus
  createdAt : Nat
  completedAt : Option Nat
  errorMessage : Option String
  stats : SessionStats
  originalText : String
  cleanedText : String
deriving Repr, DecidableEq

/-- The dictionary `_build_result` returns (its `status` entry is the
enum's `.value` string). -/
structure SessResult where
  success : Bool
  sessionId : String
  status : String
  stats : SessionStats
  errorMessage : Option String
deriving Repr, DecidableEq

/-- `ProcessingSession._build_result(success)`. -/
def build_result (sess : Session) (success : Bool) : SessResult :=
  ⟨success, sess.sessionId, statusValue sess.status, sess.stats,
    sess.errorMessage⟩

/-- `str.strip()`: drop leading and trailing whitespace characters. -/
def stripChars (cs : List Char) : List Char :=
  ((cs.dropWhile Char.isWhitespace).reverse.dropWhile
    Char.isWhitespace).reverse

/-- `re.sub(r"\s+", " ", ...)`: replace every whitespace run by a single
space.  The flag records whether the previous character was whitespace. -/
def collapseAux : List Char → Bool → List Char
  | [], _ => []
  | c :: cs, inRun =>
    if c.isWhitespace then
      if inRun then collapseAux cs true
      else ' ' :: collapseAux cs true
    else c :: collapseAux cs false

/-- `parser.clean_text_input(raw_text)`: empty or all-whitespace input
yields `""`; otherwise strip, then collapse internal whitespace runs to a
single space. -/
def clean_text_input (raw : String) : String :=
  if (stripChars raw.data).isEmpty then ""
  else String.mk (collapseAux (stripChars raw.data) false)

/-- Outcome of the `process_text_input` pipeline collaborator as observed
by `start_session`: a statistics record, a `None` return, or a raised
exception caught by the surrounding `except` block. -/
inductive PipeOutcome where
  | ok (wordsProcessed wordsAdded wordsTranslated : Nat)
  | nullResult
  | raises (msg : String)
deriving Repr, DecidableEq

/-- `ProcessingSession.start_session(text_input)`; `now` stands for the
`datetime.now()` read in the branches that record a completion time.
Disk persistence (`_save_session_state`) has no effect on the fields
modelled here. -/
def start_session (sess : Session) (textInput : String)
    (pipe : PipeOutcome) (now : Nat) : Session × SessResult :=
  let s1 : Session := { sess with
    status := .processing, originalText := textInput }
  let cleaned := clean_text_input textInput
  let s2 : Session := { s1 with cleanedText := cleaned }
  if cleaned == "" then
    let s3 : Session := { s2 with
      status := .failed,
      errorMessage := some "Empty or invalid text input" }
    (s3, build_result s3 false)
  else
    match pipe with
    | .nullResult =>
      let s3 : Session := { s2 with
        status := .failed,
        errorMessage := some "Text processing failed" }
      (s3, build_result s3 false)
    | .raises msg =>
      let s3 : Session := { s2 with
        status := .failed,
        errorMessage := some ("Unexpected error: " ++ msg),
        completedAt := some now }
      (s3, build_result s3 false)
    | .ok wp wa wt =>
      let newStats : SessionStats := { s2.stats with
        totalWordsProcessed := wp, wordsAdded := wa, wordsTranslated := wt }
      let stNew := if 0 < wa then SessionStatus.pendingReview
        else SessionStatus.completed
      let s3 : Session := { s2 with
        stats := newStats, status := stNew, completedAt := some now }
      (s3, build_result s3 true)

/-- One entry of the list `SessionManager.list_sessions` builds. -/
structure SessionSummary where
  sessionId : String
  status : String
  createdAt : Nat
  wordsAdded : Nat
  pendingWords : Nat
deriving Repr, DecidableEq

/-- `SessionManager`: the in-memory `self.sessions` dict, as its list of
values in insertion order (ids are unique, being dict keys). -/
structure Manager where
  sessions : List Session
deriving Repr, DecidableEq

/-- `sessions_list.sort(key=..., reverse=True)`: stable descending order
on creation time. -/
def sessionOrderDesc (a b : SessionSummary) : Bool :=
  b.createdAt ≤ a.createdAt

/-- The summary dict built per session inside `list_sessions`; the
pending count is computed live from the staging table. -/
def summarize (db : DbState) (s : Session) : SessionSummary :=
  ⟨s.sessionId, statusValue s.status, s.createdAt, s.stats.wordsAdded,
    (get_pending_words (some s.sessionId) db).length⟩

/-- `SessionManager.list_sessions(status_filter=None)`. -/
def list_sessions (statusFilter : Option SessionStatus) (m : Manager)
    (db : DbState) : List SessionSummary :=
  ((m.sessions.filter (fun s =>
    match statusFilter with
    | none => true
    | some f => s.status == f)).map (summarize db)).mergeSort
    sessionOrderDesc

/-- `SessionManager.delete_session(session_id)`: clears the session's
staging rows and evicts it from the in-memory dict (file removal is out of
the modelled state); returns success. -/
def delete_session (sessionId : String) (m : Manager) (db : DbState) :
    Bool × Manager × DbState :=
  (true, ⟨m.sessions.filter (fun s => !(s.sessionId == sessionId))⟩,
    (clear_session sessionId db).2)

/-- The loop body of `clear_completed_sessions`: sessions whose summary
shows zero pending words are deleted and counted when the deletion
succeeds. -/
def clearStep (acc : Nat × Manager × DbState) (info : SessionSummary) :
    Nat × Manager × DbState :=
  if info.pendingWords == 0 then
    let r := delete_session info.sessionId acc.2.1 acc.2.2
    (acc.1 + (if r.1 then 1 else 0), r.2.1, r.2.2)
  else acc

/-- `clear_completed_sessions()`: list the `COMPLETED` sessions, delete
each whose live pending count is zero, count the deletions. -/
def clear_completed_sessions (m : Manager) (db : DbState) :
    Nat × Manager × DbState :=
  (list_sessions (some .completed) m db).foldl clearStep (0, m, db)

/-- A statement of a SQLite transaction: a state write or a `COMMIT`. -/
inductive DbOp where
  | write (f : DbState → DbState)
  | commit

/-- One statement against a (draft, durable) state pair: writes advance
the draft only; `COMMIT` publishes the draft. -/
def stepOp (p : DbState × DbState) (op : DbOp) : DbState × DbState :=
  match op with
  | .write f => (f p.1, p.2)
  | .commit => (p.1, p.1)

/-- Durable state after a crash that strikes once `k` statements of the
transaction have run: the draft mutates, the durable state only moves at
commits, and an open transaction is rolled back. -/
def durableAfter (ops : List DbOp) (k : Nat) (st : DbState) : DbState :=
  ((ops.take k).foldl stepOp (st, st)).2

/-- The statement sequence of `approve_word`'s promotion branch: the
writes in program order, then the single `conn.commit()` at the end
(the preceding SELECTs read state without mutating it). -/
def approveOps (lem sessionId : String) (difficulty : Int)
    (tags : List String) (row : TempRow) : List DbOp :=
  (approveWrites lem sessionId difficulty tags row).map DbOp.write ++
    [DbOp.commit]

/-- The freshly initialised database: empty tables, first tag id 1. -/
def dbEmpty : DbState :=
  ⟨[], [], [], [], 1, 0⟩

/-- Two `add_temp_word` calls staging the same lemma under two different
surface forms in one session. -/
def stC3 : DbState :=
  (add_temp_word "haus" "haus" (some "NOUN") (some "house2") none "s1"
    (add_temp_word "hauser" "haus" (some "NOUN") (some "house1") none "s1"
      dbEmpty).2).2

/-- A staged candidate for the lemma `haus` in session `s1`. -/
def rowW2 : TempRow :=
  ⟨"hauser", "haus", some "NOUN", none, none, "s1", 0⟩

/-- A store where `haus` is both staged in `s1` and already a vocabulary
word. -/
def stW2 : DbState :=
  ⟨[⟨"haus", some "NOUN", none, some "house", 3⟩], [], [], [rowW2], 1, 1⟩

/-- A single staged row belonging to session `s`. -/
def rowC6 : TempRow :=
  ⟨"wort", "wort", none, none, none, "s", 0⟩

/-- A store whose staging table holds only `rowC6`. -/
def stC6 : DbState :=
  ⟨[], [], [], [rowC6], 1, 1⟩

/-- A store with a staged candidate whose lemma is the empty string. -/
def stC7 : DbState :=
  ⟨[], [], [], [⟨"x", "", some "NOUN", none, none, "s1", 0⟩], 1, 1⟩

/-- A vocabulary row whose word starts with an upper-case letter. -/
def rowC9 : VocabRow :=
  ⟨"Apfel", none, none, none, 3⟩

/-- A store whose vocabulary holds only `rowC9`. -/
def stC9 : DbState :=
  ⟨[rowC9], [], [], [], 1, 0⟩

/-- The claim's search predicate, modelled from the spec's words: the term
is contained in the text as a (case-sensitive) substring. -/
def specContains (hay needle : String) : Bool :=
  decide (needle.data <:+: hay.data)

/-- A newly constructed `ProcessingSession` (status `CREATED`, no
completion time, no error). -/
def freshSession : Session :=
  ⟨"session_x", .created, 0, none, none, ⟨0, 0, 0, 0⟩, "", ""⟩

/-- A staged candidate used by the approval-atomicity witness. -/
def rowW1 : TempRow :=
  ⟨"hauser", "haus", some "NOUN", none, none, "s1", 0⟩

/-- A store where `rowW1` is staged and `haus` is not yet a vocabulary
word. -/
def stW1 : DbState :=
  ⟨[], [], [], [rowW1], 1, 1⟩

/-- A completed session with no staged rows left. -/
def sessA : Session :=
  ⟨"a", .completed, 3, some 4, none, ⟨2, 0, 0, 0⟩, "ta", "ta"⟩

/-- A pending-review session that still owns a staged row. -/
def sessB : Session :=
  ⟨"b", .pendingReview, 2, some 5, none, ⟨2, 1, 1, 0⟩, "tb", "tb"⟩

/-- A completed session that still owns a staged row. -/
def sessC : Session :=
  ⟨"c", .completed, 1, some 6, none, ⟨2, 1, 0, 0⟩, "tc", "tc"⟩

/-- A manager holding the three example sessions. -/
def mgrW8 : Manager :=
  ⟨[sessA, sessB, sessC]⟩

/-- Staging rows for sessions `b` and `c` (none for `a`). -/
def dbW8 : DbState :=
  ⟨[], [], [],
    [⟨"wb", "wb", none, none, none, "b", 0⟩,
      ⟨"wc", "wc", none, none, none, "c", 1⟩], 1, 2⟩

/-- C10: calling `get_temp_words` / `get_pending_words` with an
empty-string session id takes the same branch as omitting the argument:
the whole staging table is returned (here: its full length), not the empty
list for a session named `""`. -/
theorem blank_session_id_means_global (st : DbState) :
    get_temp_words (some "") st = get_temp_words none st ∧
    get_pending_words (some "") st = get_pending_words none st ∧
    (get_pending_words (some "") st).length = st.temp.length := by
  refine ⟨rfl, rfl, ?_⟩
  exact (List.mergeSort_perm st.temp tempOrder).length_eq

/-- C5: `clear_temp_session` returns the number of staged rows of the
session, removes them all, and a second immediate call returns 0; being a
total function of the state, it raises nothing. -/
theorem clear_session_idempotent (sid : String) (st : DbState) :
    (clear_temp_session sid st).1 =
      (st.temp.filter (fun r => r.sessionId == sid)).length ∧
    ((clear_temp_session sid st).2).temp.filter
      (fun r => r.sessionId == sid) = [] ∧
    (clear_temp_session sid ((clear_temp_session sid st).2)).1 = 0 := by
  refine ⟨rfl, ?_, ?_⟩
  · simp [clear_temp_session, List.filter_filter]
  · simp [clear_temp_session, List.filter_filter]

/-- C3 counterexample: two `add_temp_word` calls with the same lemma and
session but different surface forms leave TWO staged rows for the pair
`("haus", "s1")` -- the upsert key is `(word, session_id)`, not
`(lemma, session_id)` as the claim states. -/
theorem staging_lemma_key_counterexample :
    stC3.temp.map (fun r => (r.lem, r.sessionId)) =
      [("haus", "s1"), ("haus", "s1")] := by
  rfl

/-- C3 amended: the staging store keeps at most one row per
`(surfaceForm, sessionId)`: after two calls with the same surface form and
session, exactly one row with that key remains, carrying the later call's
fields; rows with other keys are untouched; both calls report success. -/
theorem staging_word_key_upsert (w l1 l2 : String) (p1 p2 t1 t2 : Option String)
    (r1 r2 : Option Bool) (sid : String) (st : DbState) :
    ((add_temp_word w l2 p2 t2 r2 sid
        (add_temp_word w l1 p1 t1 r1 sid st).2).2).temp.filter
        (fun r => r.word == w && r.sessionId == sid) =
      [⟨w, l2, p2, t2, r2, sid, st.clock + 1⟩] ∧
    ((add_temp_word w l2 p2 t2 r2 sid
        (add_temp_word w l1 p1 t1 r1 sid st).2).2).temp.filter
        (fun r => !(r.word == w && r.sessionId == sid)) =
      st.temp.filter (fun r => !(r.word == w && r.sessionId == sid)) ∧
    (add_temp_word w l1 p1 t1 r1 sid st).1 = true ∧
    (add_temp_word w l2 p2 t2 r2 sid
      (add_temp_word w l1 p1 t1 r1 sid st).2).1 = true := by
  refine ⟨?_, ?_, rfl, rfl⟩
  · simp [add_temp_word, List.filter_append, List.filter_filter]
  · simp [add_temp_word, List.filter_append, List.filter_filter]

/-- C6 counterexample: for the distinct sessions `S1 = ""` and `S2 = "s"`,
`get_temp_words` called with `""` returns a row whose session is `"s"` --
the empty string falls into the unfiltered branch rather than selecting an
(empty) session named `""`. -/
theorem session_isolation_counterexample :
    rowC6 ∈ get_temp_words (some "") stC6 ∧ rowC6.sessionId ≠ "" := by
  constructor
  · simp [get_temp_words, stC6]
  · decide

/-- C6 amended: for every NON-empty session id, `get_temp_words` returns
exactly the staged rows of that session, ordered by creation time
ascending (an empty-string id instead returns the whole table, per the
code's truthiness test). -/
theorem session_isolation_ordered (sid : String) (hsid : sid ≠ "")
    (st : DbState) :
    (∀ r, r ∈ get_temp_words (some sid) st ↔
      r ∈ st.temp ∧ r.sessionId = sid) ∧
    (get_temp_words (some sid) st).Pairwise
      (fun a b => a.createdAt ≤ b.createdAt) := by
  have hbeq : (sid == "") = false := by
    simpa using hsid
  constructor
  · intro r
    simp [get_temp_words, hbeq, List.mem_filter]
  · have hs := @List.sorted_mergeSort TempRow tempOrder
      (fun a b c hab hbc => by
        simp only [tempOrder, decide_eq_true_eq] at *
        omega)
      (fun a b => by
        simp only [tempOrder, Bool.or_eq_true, decide_eq_true_eq]
        omega)
      (st.temp.filter (fun r => r.sessionId == sid))
    simp only [get_temp_words, hbeq, if_false, Bool.false_eq_true]
    exact hs.imp (fun h => by simpa [tempOrder] using h)

/-- C6 witness: the amended membership characterisation applied to the
concrete store `stC6` and session `"s"`. -/
theorem session_isolation_ordered_witness :
    rowC6 ∈ get_temp_words (some "s") stC6 ↔
      rowC6 ∈ stC6.temp ∧ rowC6.sessionId = "s" :=
  (session_isolation_ordered "s" (by decide) stC6).1 rowC6

/-- C7 counterexample: with a staged candidate whose lemma is the empty
string, `approve_word("", "s1")` succeeds and mutates the vocabulary store
-- the code has no blank-input guard, it only fails when no matching
staged pair exists. -/
theorem blank_lemma_counterexample :
    (approve_word "" "s1" 3 [] stC7).1 = true ∧
    (approve_word "" "s1" 3 [] stC7).2.vocab ≠ stC7.vocab := by
  decide

/-- C7 amended: whenever no staged row carries the given
`(lemma, sessionId)` pair -- which covers blank lemmas and blank session
ids exactly when no such row was staged -- `approve_word` and
`reject_word` return `false` and leave the whole store untouched; both are
total functions, so no exception escapes. -/
theorem approve_reject_absent_noop (lem sid : String) (d : Int)
    (tags : List String) (st : DbState)
    (habs : ∀ r ∈ st.temp, ¬(r.lem = lem ∧ r.sessionId = sid)) :
    approve_word lem sid d tags st = (false, st) ∧
    reject_word lem sid st = (false, st) := by
  have hb : ∀ r ∈ st.temp,
      (r.lem == lem && r.sessionId == sid) = false := by
    intro r hr
    refine Bool.eq_false_iff.mpr (fun hc => habs r hr ?_)
    simpa using hc
  have hfind : st.temp.find?
      (fun r => r.lem == lem && r.sessionId == sid) = none := by
    refine List.find?_eq_none.mpr (fun r hr => ?_)
    simp [hb r hr]
  have hfilt : st.temp.filter
      (fun r => r.lem == lem && r.sessionId == sid) = [] := by
    refine List.filter_eq_nil_iff.mpr (fun r hr => ?_)
    simp [hb r hr]
  have hkeep : st.temp.filter
      (fun r => !(r.lem == lem && r.sessionId == sid)) = st.temp := by
    refine List.filter_eq_self.mpr (fun r hr => ?_)
    simp [hb r hr]
  constructor
  · simp [approve_word, hfind]
  · unfold reject_word
    rw [hfilt, hkeep]
    rfl

/-- C7 witness: the amended no-op contract applied to the empty store. -/
theorem approve_reject_absent_noop_witness :
    approve_word "wort" "s1" 3 [] dbEmpty = (false, dbEmpty) ∧
    reject_word "wort" "s1" dbEmpty = (false, dbEmpty) :=
  approve_reject_absent_noop "wort" "s1" 3 [] dbEmpty
    (by intro r hr; cases hr)

/-- C2: when a candidate for `(lemma, sessionId)` is staged and the lemma
already exists as a vocabulary word, `approve_word` reports failure, still
deletes the staged rows of the pair, and leaves the vocabulary, tag and
association tables unchanged. -/
theorem approve_word_duplicate_cleanup (lem sid : String) (d : Int)
    (tags : List String) (st : DbState) (row : TempRow)
    (hfind : st.temp.find?
      (fun r => r.lem == lem && r.sessionId == sid) = some row)
    (hex : word_exists lem st = true) :
    (approve_word lem sid d tags st).1 = false ∧
    (approve_word lem sid d tags st).2.vocab = st.vocab ∧
    (approve_word lem sid d tags st).2.tags = st.tags ∧
    (approve_word lem sid d tags st).2.wordTags = st.wordTags ∧
    (approve_word lem sid d tags st).2.temp =
      st.temp.filter (fun r => !(r.lem == lem && r.sessionId == sid)) := by
  have hp := List.find?_some hfind
  have hlem : row.lem = lem := by
    simp only [Bool.and_eq_true, beq_iff_eq] at hp
    exact hp.1
  have hex' : word_exists row.lem st = true := by
    rw [hlem]; exact hex
  simp [approve_word, hfind, hex']

/-- C2 witness: the duplicate-cleanup contract applied to the store where
`haus` is both staged in `s1` and already a vocabulary word. -/
theorem approve_word_duplicate_cleanup_witness :
    (approve_word "haus" "s1" 3 [] stW2).1 = false ∧
    (approve_word "haus" "s1" 3 [] stW2).2.vocab = stW2.vocab :=
  ⟨(approve_word_duplicate_cleanup "haus" "s1" 3 [] stW2 rowW2 rfl rfl).1,
    (approve_word_duplicate_cleanup "haus" "s1" 3 [] stW2 rowW2 rfl rfl).2.1⟩

/-- C4 counterexample: `start_session` on empty input ends Failed with an
error message, but `completed_at` is NOT set -- the two early-return
failure branches never assign it, only the exception handler does. -/
theorem start_session_failure_counterexample :
    (start_session freshSession "" PipeOutcome.nullResult 7).1.status =
      SessionStatus.failed ∧
    (start_session freshSession "" PipeOutcome.nullResult 7).1.errorMessage
      ≠ none ∧
    (start_session freshSession "" PipeOutcome.nullResult 7).1.completedAt =
      none := by
  decide

/-- C4 amended: every failing `start_session` invocation (blank/invalid
input, pipeline returning `None`, or an exception during the pipeline)
ends with status Failed, an error message set, and a result record
carrying `success = False` with that status and error message;
`completed_at` however is set only in the exception branch and is left
untouched by the two early-return failure branches. -/
theorem start_session_failure_contract (sess : Session) (text : String)
    (pipe : PipeOutcome) (now : Nat)
    (hfail : clean_text_input text = "" ∨ pipe = .nullResult ∨
      ∃ msg, pipe = .raises msg) :
    (start_session sess text pipe now).1.status = SessionStatus.failed ∧
    (start_session sess text pipe now).1.errorMessage.isSome = true ∧
    (start_session sess text pipe now).2.success = false ∧
    (start_session sess text pipe now).2.status =
      statusValue SessionStatus.failed ∧
    (start_session sess text pipe now).2.errorMessage =
      (start_session sess text pipe now).1.errorMessage ∧
    ((clean_text_input text = "" ∨ pipe = .nullResult) →
      (start_session sess text pipe now).1.completedAt =
        sess.completedAt) ∧
    (∀ msg, clean_text_input text ≠ "" → pipe = .raises msg →
      (start_session sess text pipe now).1.completedAt = some now) := by
  cases hcb : (clean_text_input text == "") with
  | true =>
    have hc : clean_text_input text = "" := by simpa using hcb
    simp [start_session, hcb, build_result, statusValue, hc]
  | false =>
    have hc : clean_text_input text ≠ "" := by simpa using hcb
    cases pipe with
    | ok wp wa wt =>
      rcases hfail with h | h | ⟨msg, h⟩
      · exact absurd h hc
      · exact absurd h (by simp)
      · exact absurd h (by simp)
    | nullResult =>
      simp [start_session, hcb, build_result, statusValue, hc]
    | raises msg =>
      simp [start_session, hcb, build_result, statusValue, hc]

/-- C4 witness: the failure contract applied to a fresh session and empty
input. -/
theorem start_session_failure_contract_witness :
    (start_session freshSession "" PipeOutcome.nullResult 7).1.status =
      SessionStatus.failed ∧
    (start_session freshSession "" PipeOutcome.nullResult 7).2.success =
      false :=
  ⟨(start_session_failure_contract freshSession "" PipeOutcome.nullResult 7
      (Or.inl rfl)).1,
    (start_session_failure_contract freshSession "" PipeOutcome.nullResult 7
      (Or.inl rfl)).2.2.1⟩

/-- The WHERE clause as a proposition: an absent difficulty key imposes
no constraint; a truthy search term requires a LIKE hit on the word or
on a non-NULL translation. -/
theorem wordRowPred_iff (df : Option Int) (q : Option String)
    (r : VocabRow) :
    wordRowPred df q r = true ↔
      (∀ d, df = some d → r.difficulty = d) ∧
      (∀ t, q = some t → t ≠ "" →
        (strLike r.word (likePat t) = true ∨
          ∃ tr, r.translation = some tr ∧
            strLike tr (likePat t) = true)) := by
  cases df with
  | none =>
    cases q with
    | none => simp [wordRowPred]
    | some t =>
      by_cases ht : t = ""
      · subst ht
        simp [wordRowPred]
      · have htb : (t == "") = false := by simpa using ht
        cases htr : r.translation with
        | none => simp [wordRowPred, htb, ht, htr]
        | some tr => simp [wordRowPred, htb, ht, htr]
  | some d =>
    cases q with
    | none => simp [wordRowPred]
    | some t =>
      by_cases ht : t = ""
      · subst ht
        simp [wordRowPred]
      · have htb : (t == "") = false := by simpa using ht
        cases htr : r.translation with
        | none => simp [wordRowPred, htb, ht, htr]
        | some tr => simp [wordRowPred, htb, ht, htr]

/-- C9 counterexample: searching for `"a"` returns the word `"Apfel"`
(SQLite `LIKE` is ASCII-case-insensitive), although `"a"` is not a
substring of `"Apfel"` and the row has no translation -- so the result is
not "exactly the entries whose word or translation contains t as a
substring". -/
theorem get_all_words_substring_counterexample :
    get_all_words none (some "a") stC9 = [rowC9] ∧
    specContains rowC9.word "a" = false ∧
    rowC9.translation = none := by
  refine ⟨?_, by decide, rfl⟩
  simp only [get_all_words, stC9]
  rw [show (List.filter (wordRowPred none (some "a")) [rowC9]) =
    [rowC9] from by decide]
  simp

/-- C9 amended: `get_all_words` returns exactly the vocabulary rows that
pass the difficulty filter (absent key: no constraint) and the search
filter (absent or empty term: no constraint; otherwise a SQLite `LIKE`
match of `%t%` -- ASCII-case-insensitive, `%`/`_` wildcards -- against
the word or a non-NULL translation), ordered ascending by word. -/
theorem get_all_words_filter_search (df : Option Int) (q : Option String)
    (st : DbState) :
    (∀ r, r ∈ get_all_words df q st ↔ r ∈ st.vocab ∧
      (∀ d, df = some d → r.difficulty = d) ∧
      (∀ t, q = some t → t ≠ "" →
        (strLike r.word (likePat t) = true ∨
          ∃ tr, r.translation = some tr ∧
            strLike tr (likePat t) = true))) ∧
    (get_all_words df q st).Pairwise (fun a b => a.word ≤ b.word) := by
  constructor
  · intro r
    simp only [get_all_words, List.mem_mergeSort, List.mem_filter]
    rw [wordRowPred_iff]
  · have hs := @List.sorted_mergeSort VocabRow vocabOrder
      (fun a b c hab hbc => by
        simp only [vocabOrder, decide_eq_true_eq] at *
        exact le_trans hab hbc)
      (fun a b => by
        simp only [vocabOrder, Bool.or_eq_true, decide_eq_true_eq]
        exact le_total a.word b.word)
      (st.vocab.filter (wordRowPred df q))
    exact hs.imp (fun h => by simpa [vocabOrder] using h)

/-- Folding write statements moves the draft and never the durable
state. -/
theorem foldl_write_map (ws : List (DbState → DbState)) (d u : DbState) :
    (ws.map DbOp.write).foldl stepOp (d, u) = (applyWrites ws d, u) := by
  induction ws generalizing d with
  | nil => rfl
  | cons f fs ih =>
    show (fs.map DbOp.write).foldl stepOp (f d, u) = (applyWrites (f :: fs) d, u)
    rw [ih (f d)]
    rfl

/-- A transaction consisting of writes followed by a single final commit
is atomic: a crash at any point leaves either the initial state (crash
before the commit) or the state with all writes applied. -/
theorem durableAfter_writes_commit (ws : List (DbState → DbState))
    (k : Nat) (st : DbState) :
    durableAfter (ws.map DbOp.write ++ [DbOp.commit]) k st = st ∨
    durableAfter (ws.map DbOp.write ++ [DbOp.commit]) k st =
      applyWrites ws st := by
  by_cases hk : k ≤ ws.length
  · left
    unfold durableAfter
    rw [List.take_append_of_le_length (by simpa using hk)]
    rw [← List.map_take, foldl_write_map]
  · right
    unfold durableAfter
    rw [List.take_of_length_le (by simp; omega)]
    rw [List.foldl_append, foldl_write_map]
    rfl

/-- The flattened per-tag statement lists fold like the composed two-step
tag action. -/
theorem tag_flatten_foldl (word : String) (ts : List String)
    (st : DbState) :
    ((ts.map (fun t => tagWrites word t)).flatten).foldl
      (fun s f => f s) st =
      ts.foldl (fun s t => insertWordTagWrite word t (insertTagWrite t s))
        st := by
  induction ts generalizing st with
  | nil => rfl
  | cons t0 rest ih =>
    simp only [List.map_cons, List.flatten_cons, List.foldl_append,
      List.foldl_cons, List.foldl_nil, tagWrites]
    exact ih _

/-- `insertTagWrite` only ever appends to the tags table. -/
theorem insertTagWrite_fields (t : String) (st : DbState) :
    st.tags <+: (insertTagWrite t st).tags ∧
    (insertTagWrite t st).wordTags = st.wordTags ∧
    (insertTagWrite t st).temp = st.temp ∧
    (insertTagWrite t st).vocab = st.vocab := by
  cases hg : getTagIdInState t st with
  | some tid => simp [insertTagWrite, hg, List.prefix_refl]
  | none =>
    exact ⟨⟨[⟨st.nextTagId, t, none⟩], by simp [insertTagWrite, hg]⟩,
      by simp [insertTagWrite, hg], by simp [insertTagWrite, hg],
      by simp [insertTagWrite, hg]⟩

/-- `insertWordTagWrite` only ever appends to the association table. -/
theorem insertWordTagWrite_fields (word t : String) (st : DbState) :
    (insertWordTagWrite word t st).tags = st.tags ∧
    st.wordTags <+: (insertWordTagWrite word t st).wordTags ∧
    (insertWordTagWrite word t st).temp = st.temp ∧
    (insertWordTagWrite word t st).vocab = st.vocab := by
  cases hg : getTagIdInState t st with
  | none => simp [insertWordTagWrite, hg, List.prefix_refl]
  | some tid =>
    by_cases hmem : (word, tid) ∈ st.wordTags
    · simp [insertWordTagWrite, hg, hmem, List.prefix_refl]
    · refine ⟨by simp [insertWordTagWrite, hg, hmem],
        ⟨[(word, tid)], by simp [insertWordTagWrite, hg, hmem]⟩,
        by simp [insertWordTagWrite, hg, hmem],
        by simp [insertWordTagWrite, hg, hmem]⟩

/-- One tag step (get-or-create plus associate) only appends to the tag
tables and leaves vocabulary and staging untouched. -/
theorem tagStep_fields (word t : String) (st : DbState) :
    st.tags <+: (insertWordTagWrite word t (insertTagWrite t st)).tags ∧
    st.wordTags <+:
      (insertWordTagWrite word t (insertTagWrite t st)).wordTags ∧
    (insertWordTagWrite word t (insertTagWrite t st)).temp = st.temp ∧
    (insertWordTagWrite word t (insertTagWrite t st)).vocab = st.vocab := by
  obtain ⟨a1, a2, a3, a4⟩ := insertTagWrite_fields t st
  obtain ⟨b1, b2, b3, b4⟩ :=
    insertWordTagWrite_fields word t (insertTagWrite t st)
  refine ⟨?_, ?_, ?_, ?_⟩
  · rw [b1]; exact a1
  · rw [← a2]; exact b2
  · rw [b3, a3]
  · rw [b4, a4]

/-- The whole tag loop only appends to the tag tables and leaves
vocabulary and staging untouched. -/
theorem tagFold_fields (word : String) (ts : List String) (st : DbState) :
    st.tags <+: (ts.foldl
      (fun s t => insertWordTagWrite word t (insertTagWrite t s)) st).tags ∧
    st.wordTags <+: (ts.foldl
      (fun s t => insertWordTagWrite word t (insertTagWrite t s))
      st).wordTags ∧
    (ts.foldl (fun s t => insertWordTagWrite word t (insertTagWrite t s))
      st).temp = st.temp ∧
    (ts.foldl (fun s t => insertWordTagWrite word t (insertTagWrite t s))
      st).vocab = st.vocab := by
  induction ts generalizing st with
  | nil => exact ⟨List.prefix_refl _, List.prefix_refl _, rfl, rfl⟩
  | cons t0 rest ih =>
    obtain ⟨s1, s2, s3, s4⟩ := tagStep_fields word t0 st
    obtain ⟨r1, r2, r3, r4⟩ :=
      ih (insertWordTagWrite word t0 (insertTagWrite t0 st))
    exact ⟨s1.trans r1, s2.trans r2, r3.trans s3, r4.trans s4⟩

/-- After a get-or-create for tag name `t`, some tag row carries name `t`,
and its id is what a lookup returns. -/
theorem insertTagWrite_spec (t : String) (st : DbState) :
    ∃ tid, getTagIdInState t (insertTagWrite t st) = some tid ∧
      ∃ tr ∈ (insertTagWrite t st).tags,
        tr.tagName = t ∧ tr.tagId = tid := by
  cases hg : getTagIdInState t st with
  | some tid =>
    have hstep : insertTagWrite t st = st := by simp [insertTagWrite, hg]
    rw [hstep]
    have hg' := hg
    unfold getTagIdInState at hg'
    obtain ⟨tr, hfind, hid⟩ := Option.map_eq_some'.mp hg'
    exact ⟨tid, hg, tr, List.mem_of_find?_eq_some hfind,
      by simpa using List.find?_some hfind, hid⟩
  | none =>
    have hg' := hg
    unfold getTagIdInState at hg'
    have hfind : st.tags.find? (fun tr => tr.tagName == t) = none :=
      Option.map_eq_none'.mp hg'
    refine ⟨st.nextTagId, ?_, ⟨st.nextTagId, t, none⟩,
      by simp [insertTagWrite, hg], rfl, rfl⟩
    simp [getTagIdInState, insertTagWrite, hg, hfind]

/-- One tag step establishes the claim's tag property: a tag row named
`t` exists and `(word, its id)` is associated. -/
theorem tagStep_establishes (word t : String) (st : DbState) :
    ∃ tid,
      (∃ tr ∈ (insertWordTagWrite word t (insertTagWrite t st)).tags,
        tr.tagName = t ∧ tr.tagId = tid) ∧
      (word, tid) ∈
        (insertWordTagWrite word t (insertTagWrite t st)).wordTags := by
  obtain ⟨tid, hg1, tr, htr, hname, hid⟩ := insertTagWrite_spec t st
  by_cases hmem : (word, tid) ∈ (insertTagWrite t st).wordTags
  · refine ⟨tid, ⟨tr, ?_, hname, hid⟩, ?_⟩
    · simpa [insertWordTagWrite, hg1, hmem] using htr
    · simp [insertWordTagWrite, hg1, hmem]
  · refine ⟨tid, ⟨tr, ?_, hname, hid⟩, ?_⟩
    · simpa [insertWordTagWrite, hg1, hmem] using htr
    · simp [insertWordTagWrite, hg1, hmem]

/-- The tag loop establishes the tag property for every supplied name. -/
theorem tagFold_establishes (word : String) (ts : List String)
    (st : DbState) :
    ∀ t ∈ ts, ∃ tid,
      (∃ tr ∈ (ts.foldl
        (fun s u => insertWordTagWrite word u (insertTagWrite u s))
        st).tags, tr.tagName = t ∧ tr.tagId = tid) ∧
      (word, tid) ∈ (ts.foldl
        (fun s u => insertWordTagWrite word u (insertTagWrite u s))
        st).wordTags := by
  induction ts generalizing st with
  | nil => intro t ht; cases ht
  | cons t0 rest ih =>
    intro t ht
    simp only [List.foldl_cons]
    rcases List.mem_cons.mp ht with h | h
    · subst h
      obtain ⟨tid, ⟨tr, htr, hn, hi⟩, hassoc⟩ := tagStep_establishes word t st
      obtain ⟨hp1, hp2, _, _⟩ := tagFold_fields word rest
        (insertWordTagWrite word t (insertTagWrite t st))
      exact ⟨tid, ⟨tr, hp1.subset htr, hn, hi⟩, hp2.subset hassoc⟩
    · exact ih _ t h

/-- Running the promotion writes equals: insert the vocabulary row, run
the tag loop, delete the staged rows. -/
theorem approveWrites_apply (lem sid : String) (d : Int)
    (tags : List String) (row : TempRow) (st : DbState) :
    applyWrites (approveWrites lem sid d tags row) st =
      { (tags.foldl
          (fun s t => insertWordTagWrite row.lem t (insertTagWrite t s))
          { st with vocab := st.vocab ++
            [⟨row.lem, row.pos, row.isRegular, row.translation, d⟩] }) with
        temp := (tags.foldl
          (fun s t => insertWordTagWrite row.lem t (insertTagWrite t s))
          { st with vocab := st.vocab ++
            [⟨row.lem, row.pos, row.isRegular, row.translation, d⟩] }).temp.filter
          (fun r => !(r.lem == lem && r.sessionId == sid)) } := by
  simp only [approveWrites, applyWrites, List.foldl_cons, List.foldl_append,
    List.foldl_nil]
  rw [tag_flatten_foldl]

/-- C1: `approve_word` is atomic for a staged candidate whose lemma is not
yet a vocabulary word.  Its statement trace is writes followed by one
final commit, so a crash at any statement leaves either the untouched
initial store or the fully promoted store; the promoted store holds the
vocabulary entry built from the candidate's fields and the supplied
difficulty, a tag row and an association for every supplied tag name, and
no staged row for the pair remains. -/
theorem approve_word_atomic (lem sid : String) (d : Int)
    (tags : List String) (st : DbState) (row : TempRow)
    (hfind : st.temp.find?
      (fun r => r.lem == lem && r.sessionId == sid) = some row)
    (hnew : word_exists row.lem st = false) :
    (∀ k, durableAfter (approveOps lem sid d tags row) k st = st ∨
      durableAfter (approveOps lem sid d tags row) k st =
        (approve_word lem sid d tags st).2) ∧
    (approve_word lem sid d tags st).1 = true ∧
    (⟨row.lem, row.pos, row.isRegular, row.translation, d⟩ : VocabRow) ∈
      (approve_word lem sid d tags st).2.vocab ∧
    (∀ t ∈ tags, ∃ tid,
      (∃ tr ∈ (approve_word lem sid d tags st).2.tags,
        tr.tagName = t ∧ tr.tagId = tid) ∧
      (row.lem, tid) ∈ (approve_word lem sid d tags st).2.wordTags) ∧
    (∀ r ∈ (approve_word lem sid d tags st).2.temp,
      ¬(r.lem = lem ∧ r.sessionId = sid)) := by
  have happ : approve_word lem sid d tags st =
      (true, applyWrites (approveWrites lem sid d tags row) st) := by
    simp [approve_word, hfind, hnew]
  refine ⟨?_, ?_, ?_, ?_, ?_⟩
  · intro k
    rw [happ]
    exact durableAfter_writes_commit
      (approveWrites lem sid d tags row) k st
  · rw [happ]
  · rw [happ, approveWrites_apply]
    obtain ⟨_, _, _, hv⟩ := tagFold_fields row.lem tags
      { st with vocab := st.vocab ++
        [⟨row.lem, row.pos, row.isRegular, row.translation, d⟩] }
    have hmem : (⟨row.lem, row.pos, row.isRegular, row.translation, d⟩ :
        VocabRow) ∈ (tags.foldl
          (fun s t => insertWordTagWrite row.lem t (insertTagWrite t s))
          { st with vocab := st.vocab ++
            [⟨row.lem, row.pos, row.isRegular, row.translation,
              d⟩] }).vocab := by
      rw [hv]
      simp
    exact hmem
  · intro t ht
    rw [happ, approveWrites_apply]
    exact tagFold_establishes row.lem tags _ t ht
  · intro r hr hcon
    rw [happ, approveWrites_apply] at hr
    rcases List.mem_filter.mp hr with ⟨_, hpred⟩
    rw [hcon.1, hcon.2] at hpred
    simp at hpred

/-- C1 witness: the atomicity theorem applied to a store with one staged
candidate and an empty vocabulary. -/
theorem approve_word_atomic_witness :
    (durableAfter (approveOps "haus" "s1" 4 ["noun"] rowW1) 1 stW1 = stW1 ∨
      durableAfter (approveOps "haus" "s1" 4 ["noun"] rowW1) 1 stW1 =
        (approve_word "haus" "s1" 4 ["noun"] stW1).2) ∧
    (approve_word "haus" "s1" 4 ["noun"] stW1).1 = true :=
  ⟨(approve_word_atomic "haus" "s1" 4 ["noun"] stW1 rowW1 rfl rfl).1 1,
    (approve_word_atomic "haus" "s1" 4 ["noun"] stW1 rowW1 rfl rfl).2.1⟩

/-- The deletion loop of `clear_completed_sessions` over an arbitrary
summary list: it adds one to the counter per summary with zero pending
words and removes exactly the sessions bearing those summaries' ids. -/
theorem clearFold_spec (L : List SessionSummary) (c : Nat) (m : Manager)
    (db : DbState) :
    (L.foldl clearStep (c, m, db)).1 =
      c + (L.filter (fun i => i.pendingWords == 0)).length ∧
    (L.foldl clearStep (c, m, db)).2.1.sessions =
      m.sessions.filter (fun s =>
        !((L.filter (fun i => i.pendingWords == 0)).map
          (fun i => i.sessionId)).contains s.sessionId) := by
  induction L generalizing c m db with
  | nil => simp
  | cons i L' ih =>
    rw [List.foldl_cons]
    cases hp : (i.pendingWords == 0) with
    | false =>
      have hstep : clearStep (c, m, db) i = (c, m, db) := by
        simp [clearStep, hp]
      rw [hstep, List.filter_cons_of_neg (by simp [hp])]
      exact ih c m db
    | true =>
      have hstep : clearStep (c, m, db) i = (c + 1,
          ⟨m.sessions.filter (fun s => !(s.sessionId == i.sessionId))⟩,
          (clear_session i.sessionId db).2) := by
        simp [clearStep, hp, delete_session]
      rw [hstep, List.filter_cons_of_pos (by simp [hp])]
      obtain ⟨ih1, ih2⟩ := ih (c + 1)
        ⟨m.sessions.filter (fun s => !(s.sessionId == i.sessionId))⟩
        (clear_session i.sessionId db).2
      refine ⟨by rw [ih1]; simp; omega, ?_⟩
      rw [ih2]
      show (m.sessions.filter _).filter _ = _
      rw [List.filter_filter, List.map_cons]
      refine List.filter_congr (fun s _ => ?_)
      simp only [List.contains_cons]
      cases hs : s.sessionId == i.sessionId <;> simp [hs]

/-- Counting the zero-pending summaries among the COMPLETED sessions
equals counting the sessions that are completed with zero live pending
rows. -/
theorem completed_summary_count (m : Manager) (db : DbState) :
    ((list_sessions (some SessionStatus.completed) m db).filter
      (fun i => i.pendingWords == 0)).length =
    (m.sessions.filter (fun s => s.status == SessionStatus.completed &&
      (get_pending_words (some s.sessionId) db).length == 0)).length := by
  unfold list_sessions
  rw [((List.mergeSort_perm _ sessionOrderDesc).filter _).length_eq]
  rw [List.filter_map, List.length_map, List.filter_filter]
  refine congrArg List.length (List.filter_congr fun s _ => ?_)
  simp [summarize, Bool.and_comm]

/-- For a manager with unique session ids, a session's id appears among
the deleted summaries' ids exactly when the session is completed with
zero live pending rows. -/
theorem completed_summary_ids (m : Manager) (db : DbState)
    (hids : (m.sessions.map (fun s => s.sessionId)).Nodup) :
    ∀ s ∈ m.sessions,
      (((list_sessions (some SessionStatus.completed) m db).filter
        (fun i => i.pendingWords == 0)).map
        (fun i => i.sessionId)).contains s.sessionId =
      (s.status == SessionStatus.completed &&
        (get_pending_words (some s.sessionId) db).length == 0) := by
  intro s hs
  have hbool : ∀ a b : Bool, (a = true ↔ b = true) → a = b := by decide
  refine hbool _ _ ⟨fun hc => ?_, fun hP => ?_⟩
  · have hmem : s.sessionId ∈
        ((list_sessions (some SessionStatus.completed) m db).filter
          (fun i => i.pendingWords == 0)).map (fun i => i.sessionId) := by
      simpa using hc
    obtain ⟨i, hiq, hid⟩ := List.mem_map.mp hmem
    obtain ⟨hiL, hq⟩ := List.mem_filter.mp hiq
    have hiL' : i ∈ (m.sessions.filter
        (fun s' => s'.status == SessionStatus.completed)).map
        (summarize db) := by
      simpa [list_sessions] using hiL
    obtain ⟨s', hs'f, hsum⟩ := List.mem_map.mp hiL'
    obtain ⟨hs'm, hst⟩ := List.mem_filter.mp hs'f
    have hid' : s'.sessionId = s.sessionId := by
      rw [← hid, ← hsum]
      rfl
    have hss : s' = s :=
      List.inj_on_of_nodup_map hids hs'm hs hid'
    subst hss
    refine Bool.and_eq_true_iff.mpr ⟨hst, ?_⟩
    rw [← hsum] at hq
    simpa [summarize] using hq
  · obtain ⟨hst, hpend⟩ := Bool.and_eq_true_iff.mp hP
    have hiL : summarize db s ∈
        list_sessions (some SessionStatus.completed) m db := by
      simp only [list_sessions, List.mem_mergeSort]
      exact List.mem_map_of_mem _ (List.mem_filter.mpr ⟨hs, hst⟩)
    have hq : ((summarize db s).pendingWords == 0) = true := by
      simpa [summarize] using hpend
    have hmem : (summarize db s).sessionId ∈
        ((list_sessions (some SessionStatus.completed) m db).filter
          (fun i => i.pendingWords == 0)).map (fun i => i.sessionId) :=
      List.mem_map_of_mem _ (List.mem_filter.mpr ⟨hiL, hq⟩)
    simpa [summarize] using hmem

/-- C8: `clear_completed_sessions` deletes exactly the sessions whose
stored status is Completed and whose live pending count (queried from the
staging store at listing time) is zero, and returns how many it deleted;
a session whose status is PendingReview always survives, whatever its
pending count. -/
theorem clear_completed_sessions_spec (m : Manager) (db : DbState)
    (hids : (m.sessions.map (fun s => s.sessionId)).Nodup) :
    (clear_completed_sessions m db).1 =
      (m.sessions.filter (fun s => s.status == SessionStatus.completed &&
        (get_pending_words (some s.sessionId) db).length == 0)).length ∧
    (clear_completed_sessions m db).2.1.sessions =
      m.sessions.filter (fun s =>
        !(s.status == SessionStatus.completed &&
          (get_pending_words (some s.sessionId) db).length == 0)) ∧
    (∀ s ∈ m.sessions, s.status = SessionStatus.pendingReview →
      s ∈ (clear_completed_sessions m db).2.1.sessions) := by
  obtain ⟨h1, h2⟩ :=
    clearFold_spec (list_sessions (some SessionStatus.completed) m db) 0 m db
  have hkey := completed_summary_ids m db hids
  refine ⟨?_, ?_, ?_⟩
  · show ((list_sessions (some SessionStatus.completed) m db).foldl
      clearStep (0, m, db)).1 = _
    rw [h1, completed_summary_count m db]
    omega
  · show ((list_sessions (some SessionStatus.completed) m db).foldl
      clearStep (0, m, db)).2.1.sessions = _
    rw [h2]
    exact List.filter_congr fun s hs => by rw [hkey s hs]
  · intro s hs hpr
    show s ∈ ((list_sessions (some SessionStatus.completed) m db).foldl
      clearStep (0, m, db)).2.1.sessions
    rw [h2]
    refine List.mem_filter.mpr ⟨hs, ?_⟩
    rw [hkey s hs, hpr]
    rfl

/-- C8 witness: the maintenance contract applied to a manager holding a
deletable completed session, a pending-review session, and a completed
session that still has staged rows. -/
theorem clear_completed_sessions_spec_witness :
    (clear_completed_sessions mgrW8 dbW8).1 =
      (mgrW8.sessions.filter (fun s =>
        s.status == SessionStatus.completed &&
        (get_pending_words (some s.sessionId) dbW8).length == 0)).length ∧
    sessB ∈ (clear_completed_sessions mgrW8 dbW8).2.1.sessions :=
  ⟨(clear_completed_sessions_spec mgrW8 dbW8 (by decide)).1,
    (clear_completed_sessions_spec mgrW8 dbW8 (by decide)).2.2 sessB
      (by decide) rfl⟩
